import Mathlib

/-!
Verification of the BufferHub queue client
(`libs/vr/libbufferhubqueue/include/private/dvr/buffer_hub_queue_client.h`).

The header declares `BufferHubQueue` (slot table `buffers_`, suppress flags
`epollhup_pending_`, availability ring `available_buffers_`, counter
`capacity_`) together with the producer and consumer specializations.  The
event-loop and registration bodies live in the corresponding `.cpp`
translation unit, which is not part of the sampled sources; where a body is
missing the definition below is modelled from the specification text and its
doc comment says so explicitly.  Everything present in the header (constants,
inline accessors, the `epollhup_pending_` protocol comment) is embedded
directly.
-/

set_option autoImplicit false

namespace BufferHubQueueSpec

/-- Constant `kMaxQueueCapacity = android::BufferQueueDefs::NUM_BUFFER_SLOTS`.
Modelled from the spec: `BufferQueueDefs.h` is outside the sampled sources;
the spec fixes `MAX_CAPACITY` as "a fixed system constant, e.g. 64". -/
def kMaxQueueCapacity : Nat := 64

/-- Constant `static constexpr int64_t kEpollQueueEventIndex = -1;` (header line 71). -/
def kEpollQueueEventIndex : Int := -1

/-- Constant `static constexpr int kNoTimeOut = -1;` (header line 75). -/
def kNoTimeOut : Int := -1

/-- Buffer lifecycle states of the four-phase ownership protocol
(gain → post → acquire → release). -/
inductive BufState where
  | gained
  | posted
  | acquired
  | released
deriving DecidableEq, Repr

/-- A `BufferHubBuffer` client handle: an identity plus its lifecycle state. -/
structure Buffer where
  id : Nat
  state : BufState
deriving DecidableEq, Repr

/-- An entry of the availability ring, mirroring `BufferHubQueue::BufferInfo`
(header lines 136-170): the logical slot number and the buffer client.
The per-entry metadata blob is opaque to every claim and elided. -/
structure BufferInfo where
  slot : Nat
  buffer : Buffer
deriving DecidableEq, Repr

/-- The state of a `BufferHubQueue` (header lines 172-212):
`buffers_` (slot table, arena of `kMaxQueueCapacity` optional handles),
`epollhup_pending_` (per-slot suppress flags), `available_buffers_`
(FIFO ring, front at the head) and `capacity_`. -/
structure QueueState where
  buffers : List (Option Buffer)
  epollhup_pending : List Bool
  available_buffers : List BufferInfo
  capacity : Nat
deriving DecidableEq, Repr

/-- Well-formedness: the two arenas have exactly `kMaxQueueCapacity` slots.
Modelled from the spec: the constructor sizing the vectors is in the missing
`.cpp`; the spec mandates a fixed arena of `MAX_CAPACITY` slots. -/
def WF (q : QueueState) : Prop :=
  q.buffers.length = kMaxQueueCapacity ∧
  q.epollhup_pending.length = kMaxQueueCapacity

instance (q : QueueState) : Decidable (WF q) := by
  unfold WF; infer_instance

/-- The freshly constructed queue: empty arenas, empty ring, zero capacity. -/
def initQueue : QueueState :=
  { buffers := List.replicate kMaxQueueCapacity none
  , epollhup_pending := List.replicate kMaxQueueCapacity false
  , available_buffers := []
  , capacity := 0 }

/-- Accessor `size_t count() const \x7b return available_buffers_.GetSize(); \x7d`
(header line 36). -/
def count (q : QueueState) : Nat := q.available_buffers.length

/-- Accessor `size_t capacity() const \x7b return capacity_; \x7d` (header line 39). -/
def capacity (q : QueueState) : Nat := q.capacity

/-- Accessor `bool is_full() const \x7b return available_buffers_.IsFull(); \x7d`
(header line 45); the ring is full when it holds `kMaxQueueCapacity`
entries (spec: the ring capacity bound is `MAX_CAPACITY`). -/
def is_full (q : QueueState) : Bool :=
  kMaxQueueCapacity ≤ q.available_buffers.length

/-- Lookup `GetBuffer(size_t slot)`, whose inline body is
`return buffers_[slot];` (header lines 49-51): slot-table lookup; an
unpopulated or out-of-arena slot holds no buffer, so the result is empty. -/
def GetBuffer (q : QueueState) (slot : Nat) : Option Buffer :=
  (q.buffers.getD slot none)

/-- The suppress flag `epollhup_pending_[slot]` (header line 198). -/
def hupPending (q : QueueState) (slot : Nat) : Bool :=
  q.epollhup_pending.getD slot false

/-- Operation `void Enqueue(std::shared_ptr<BufferHubBuffer> buf, size_t slot);`
(header line 63).  Modelled from the spec: the body is in the missing
`.cpp`; the spec has `PushBack` append to the ring with the precondition
that the slot is already valid in the slot table — violating it is a
programming error, embedded as a no-op rather than a state change. -/
def Enqueue (q : QueueState) (buf : Buffer) (slot : Nat) : QueueState :=
  if (GetBuffer q slot).isSome then
    { q with available_buffers := q.available_buffers ++ [⟨slot, buf⟩] }
  else q

/-- Operation `int BufferHubQueue::DetachBuffer(size_t slot)` (header line 87).
Modelled from the spec: the body is in the missing `.cpp`; the spec has
`Deregister` disarm the slot's notification source, clear the slot, drop
the registration count, and purge any ring entry for that slot; it fails
(`none`) when the slot holds no buffer. -/
def DetachBuffer (q : QueueState) (slot : Nat) : Option QueueState :=
  match GetBuffer q slot with
  | none => none
  | some _ =>
      some { q with
        buffers := q.buffers.set slot none
      , available_buffers :=
          q.available_buffers.filter (fun e => !(e.slot == slot))
      , capacity := q.capacity - 1 }

/-- Operation `int BufferHubQueue::AddBuffer(buf, slot)` (header line 83).
Modelled from the spec: the body is in the missing `.cpp`.  Registration
beyond `MAX_CAPACITY` (or outside the slot arena) is rejected with the
state untouched.  Re-registration over an occupied slot follows the
`epollhup_pending_` protocol comment (header lines 176-198): the old
occupant is detached first and the suppress flag for the slot is marked so
the stale EPOLLHUP for the old occupant is later swallowed once. -/
def AddBuffer (q : QueueState) (buf : Buffer) (slot : Nat) :
    Option QueueState :=
  if kMaxQueueCapacity ≤ q.capacity then none
  else if kMaxQueueCapacity ≤ slot then none
  else
    match GetBuffer q slot with
    | some _ =>
        match DetachBuffer q slot with
        | none => none
        | some q1 =>
            some { q1 with
              buffers := q1.buffers.set slot (some buf)
            , epollhup_pending := q1.epollhup_pending.set slot true
            , capacity := q1.capacity + 1 }
    | none =>
        some { q with
          buffers := q.buffers.set slot (some buf)
        , capacity := q.capacity + 1 }

/-- The role realizing the `OnBufferReady` extension point. -/
inductive Role where
  | producer
  | consumer
deriving DecidableEq, Repr

/-- Extension point `OnBufferReady` (header lines 102-103, 297-298, 343-344).
Modelled from the spec: the overriding bodies are in the missing `.cpp`;
the producer gains a buffer released by the consumer and re-enqueues it,
the consumer acquires a buffer posted by the producer and enqueues it. -/
def OnBufferReady (role : Role) (q : QueueState) (buf : Buffer)
    (slot : Nat) : QueueState :=
  let buf2 : Buffer :=
    { buf with
      state := match role with
        | .producer => .gained
        | .consumer => .acquired }
  let q2 := { q with buffers := q.buffers.set slot (some buf2) }
  Enqueue q2 buf2 slot

/-- The two epoll event kinds a buffer channel reports. -/
inductive EventKind where
  | epollin
  | epollhup
deriving DecidableEq, Repr

/-- Dispatcher `void HandleBufferEvent(size_t slot, const epoll_event&)`
(header line 99).  Modelled from the spec: the body is in the missing `.cpp`;
readable dispatches `OnBufferReady`, hangup deregisters the slot unless the
suppress flag is set, in which case the flag is merely cleared (header
lines 176-198).  An event for an unpopulated slot is ignored. -/
def HandleBufferEvent (role : Role) (q : QueueState) (slot : Nat)
    (kind : EventKind) : QueueState :=
  match GetBuffer q slot with
  | none => q
  | some buf =>
      match kind with
      | .epollin => OnBufferReady role q buf slot
      | .epollhup =>
          if hupPending q slot then
            { q with epollhup_pending := q.epollhup_pending.set slot false }
          else
            (DetachBuffer q slot).getD q

/-- An event delivered by one `epoll_wait` wake-up: either a buffer event
carrying the slot (epoll data in the buffer-index range) or the queue-level
event (`kEpollQueueEventIndex`). -/
inductive QEvent where
  | bufferEv (slot : Nat) (kind : EventKind)
  | queueEv
deriving DecidableEq, Repr

/-- Dispatch a single woken event.  Modelled from the spec: the dispatch
lives in the missing `WaitForBuffers` body; queue-level events invoke
`OnBufferAllocated`, which is a no-op for the producer (header line 301)
and triggers an import on the consumer — the import itself is driven by
the transport and is modelled separately, so here it leaves local state
untouched until the imported buffers are registered. -/
def dispatchEvent (role : Role) (q : QueueState) (e : QEvent) : QueueState :=
  match e with
  | .bufferEv slot kind => HandleBufferEvent role q slot kind
  | .queueEv => q

/-- Dispatch the bounded batch of events returned by one wake-up, strictly
in the order the wait primitive returned them. -/
def dispatchAll (role : Role) (q : QueueState) (es : List QEvent) :
    QueueState :=
  es.foldl (dispatchEvent role) q

/-- The outcome of one call into the wait primitive: the wait expired with
no event, failed fatally, or woke with a batch of events after `elapsed`
milliseconds. -/
inductive WaitOutcome where
  | timedOut
  | fatal
  | woke (elapsed : Nat) (events : List QEvent)
deriving DecidableEq, Repr

/-- Loop `bool WaitForBuffers(int timeout)` (header line 98).  Modelled from
the spec: the body is in the missing `.cpp`; while the ring is empty it
repeatedly calls the wait primitive and dispatches each woken batch, and
it returns `false` exactly when the wait expires or fails fatally.  The
successive outcomes of the wait primitive are supplied as the environment
`env`; `none` means the environment ended while the loop was still
blocked inside the wait primitive. -/
def WaitForBuffers (role : Role) (q : QueueState) :
    List WaitOutcome → Option (Bool × QueueState)
  | [] => if count q ≠ 0 then some (true, q) else none
  | o :: rest =>
      if count q ≠ 0 then some (true, q)
      else
        match o with
        | .timedOut => some (false, q)
        | .fatal => some (false, q)
        | .woke _ es => WaitForBuffers role (dispatchAll role q es) rest

/-- The result of `Dequeue`: a popped ring entry, the empty result
(`nullptr`), or still blocked when the environment ran out. -/
inductive DequeueResult where
  | ok (info : BufferInfo) (q : QueueState)
  | empty (q : QueueState)
  | pending
deriving DecidableEq, Repr

/-- Pop the front of the availability ring. -/
def popFront (q : QueueState) : DequeueResult :=
  match q.available_buffers with
  | [] => .empty q
  | info :: rest => .ok info { q with available_buffers := rest }

/-- Operation `Dequeue(int timeout, ...)` (header lines 94-95).  Modelled from the
spec: the body is in the missing `.cpp`; it pops the ring front if
non-empty and otherwise runs `WaitForBuffers`, returning empty only when
the wait reported expiry or failure. -/
def Dequeue (role : Role) (q : QueueState) (env : List WaitOutcome) :
    DequeueResult :=
  if count q = 0 then
    match WaitForBuffers role q env with
    | none => .pending
    | some (false, q2) => .empty q2
    | some (true, q2) => popFront q2
  else popFront q

/-- Total milliseconds the environment spends inside woken waits. -/
def envElapsed : List WaitOutcome → Nat
  | [] => 0
  | .timedOut :: rest => envElapsed rest
  | .fatal :: rest => envElapsed rest
  | .woke d _ :: rest => d + envElapsed rest

/-- Validity of a wait-outcome environment against the caller's timeout,
accumulating the milliseconds already elapsed: the primitive reports
expiry only for a non-negative timeout whose budget has been used up
(a zero timeout may therefore expire immediately — the poll — and a
negative timeout never expires, blocking indefinitely). -/
def envValidFrom (timeout : Int) : Nat → List WaitOutcome → Bool
  | _, [] => true
  | e, .timedOut :: rest =>
      decide (0 ≤ timeout ∧ timeout ≤ (e : Int)) && envValidFrom timeout e rest
  | e, .fatal :: rest => envValidFrom timeout e rest
  | e, .woke d _ :: rest => envValidFrom timeout (e + d) rest

/-- A wait-outcome environment valid for `timeout` from a fresh budget. -/
def envValid (timeout : Int) (env : List WaitOutcome) : Bool :=
  envValidFrom timeout 0 env

/-- Classifier `static bool is_buffer_event_index(int64_t index)`
(header lines 126-129): `index >= 0 && index < (int64_t)kMaxQueueCapacity`. -/
def is_buffer_event_index (index : Int) : Bool :=
  decide (0 ≤ index) && decide (index < (kMaxQueueCapacity : Int))

/-- Classifier `static bool is_queue_event_index(int64_t index)`
(header lines 132-134): `index == kEpollQueueEventIndex`. -/
def is_queue_event_index (index : Int) : Bool :=
  index == kEpollQueueEventIndex

/-- The usage-mask configuration of a producer queue (header lines
228-246): `usage_set_mask`, `usage_clear_mask`, `usage_deny_set_mask`,
`usage_deny_clear_mask`, as bit masks. -/
structure UsageMasks where
  set_mask : Nat
  clear_mask : Nat
  deny_set_mask : Nat
  deny_clear_mask : Nat
deriving DecidableEq, Repr

/-- Constructor `ProducerQueue::Create(usage_set_mask, usage_clear_mask,
usage_deny_set_mask, usage_deny_clear_mask)` (header lines 239-246).
Modelled from the spec: the constructor body is in the missing `.cpp`;
the header comment mandates that conflicting deny masks are invalid input
on creation, so construction fails (`none`) when they overlap. -/
def producerCreate (m : UsageMasks) : Option UsageMasks :=
  if m.deny_set_mask &&& m.deny_clear_mask ≠ 0 then none else some m

/-- The deny-mask admission check applied to a requested usage.  Modelled
from the spec: an allocation is rejected when any `usage_deny_set_mask`
bit is set in the request, or any `usage_deny_clear_mask` bit is unset in
the request (header lines 232-236). -/
def usageDenied (m : UsageMasks) (usage : Nat) : Bool :=
  (usage &&& m.deny_set_mask ≠ 0) || (usage &&& m.deny_clear_mask ≠ m.deny_clear_mask)

/-- Operation `int ProducerQueue::AddBuffer(buf, slot)` (header line 273).
Modelled from the spec: the body is in the missing `.cpp`; it registers
through the base `AddBuffer` and then immediately enqueues, since a
producer buffer is available (gained) as soon as it is added. -/
def producerAddBuffer (q : QueueState) (buf : Buffer) (slot : Nat) :
    Option QueueState :=
  (AddBuffer q buf slot).map (fun q2 => Enqueue q2 buf slot)

/-- Operation `int ProducerQueue::AllocateBuffer(width, height, format, usage,
slice_count, out_slot)` (header lines 268-269).  Modelled from the spec:
the body is in the missing `.cpp`; the deny-mask checks reject the
request with no slot registered, otherwise the transport's allocation
result `alloc` (a fresh buffer identity and its slot) is registered and
immediately enqueued in the gained state.  Returns the updated state and
the output slot. -/
def AllocateBuffer (m : UsageMasks) (q : QueueState) (usage : Nat)
    (alloc : Nat × Nat) : Option (QueueState × Nat) :=
  if usageDenied m usage then none
  else
    let buf : Buffer := { id := alloc.1, state := .gained }
    (producerAddBuffer q buf alloc.2).map (fun q2 => (q2, alloc.2))

/-- Operation `int ConsumerQueue::AddBuffer(buf, slot)` (header line 341): registers
through the base `AddBuffer` only — a consumer buffer is NOT available
until the producer posts it (header lines 337-340). -/
def consumerAddBuffer (q : QueueState) (buf : Buffer) (slot : Nat) :
    Option QueueState :=
  AddBuffer q buf slot

/-- Operation `int ConsumerQueue::ImportBuffers()` (header line 318).  Modelled from
the spec: the body is in the missing `.cpp`; the transport hands over the
buffers allocated since the last import (`newBufs`, buffer identity and
slot each) and each is registered via the consumer `AddBuffer`; the call
fails as a whole when a registration fails.  Returns the updated state
and the number of buffers imported. -/
def ImportBuffers (q : QueueState) (newBufs : List (Buffer × Nat)) :
    Option (QueueState × Nat) :=
  match newBufs with
  | [] => some (q, 0)
  | (buf, slot) :: rest =>
      match consumerAddBuffer q buf slot with
      | none => none
      | some q2 =>
          match ImportBuffers q2 rest with
          | none => none
          | some (q3, n) => some (q3, n + 1)

/-- The operations a client can drive a queue through; used to quantify
over all reachable states. -/
inductive Op where
  | add (buf : Buffer) (slot : Nat)
  | detach (slot : Nat)
  | enq (buf : Buffer) (slot : Nat)
  | pop
  | handle (slot : Nat) (kind : EventKind)
deriving DecidableEq, Repr

/-- One operation step; a failing registration or deregistration leaves
the state unchanged. -/
def step (role : Role) (q : QueueState) : Op → QueueState
  | .add buf slot => (AddBuffer q buf slot).getD q
  | .detach slot => (DetachBuffer q slot).getD q
  | .enq buf slot => Enqueue q buf slot
  | .pop =>
      match popFront q with
      | .ok _ q2 => q2
      | _ => q
  | .handle slot kind => HandleBufferEvent role q slot kind

/-- Run a sequence of operations from a state. -/
def run (role : Role) (q : QueueState) (ops : List Op) : QueueState :=
  ops.foldl (step role) q

/-! Concrete sample states used to exercise the theorems on executable
inputs. -/

/-- A sample producer buffer. -/
def sampleBuf : Buffer := { id := 7, state := .gained }

/-- A second sample buffer, used to replace `sampleBuf` in a slot. -/
def bufB : Buffer := { id := 8, state := .gained }

/-- The queue after registering `sampleBuf` at slot 0. -/
def sampleReg : QueueState := (AddBuffer initQueue sampleBuf 0).getD initQueue

/-- The queue after replacing the slot-0 occupant of `sampleReg` by
`bufB` (a detach-and-immediate-reattach, marking the suppress flag). -/
def qRep : QueueState := (AddBuffer sampleReg bufB 0).getD initQueue

/-- A usage-mask configuration with all masks clear. -/
def mZero : UsageMasks :=
  { set_mask := 0, clear_mask := 0, deny_set_mask := 0, deny_clear_mask := 0 }

/-- The queue after one successful producer allocation into slot 3. -/
def qAlloc : QueueState :=
  ((AllocateBuffer mZero initQueue 0 (9, 3)).getD (initQueue, 0)).1

/-- The queue after one successful consumer import into slot 2. -/
def qImp : QueueState :=
  ((ImportBuffers initQueue
    [({ id := 9, state := .posted }, 2)]).getD (initQueue, 0)).1

/-- A queue at full registration capacity with an empty ring. -/
def qFull : QueueState :=
  { buffers := List.replicate kMaxQueueCapacity (some sampleBuf)
  , epollhup_pending := List.replicate kMaxQueueCapacity false
  , available_buffers := []
  , capacity := kMaxQueueCapacity }

/-- Ring sanity: every availability-ring entry references a slot whose
slot-table entry holds a buffer. -/
def RingOK (q : QueueState) : Prop :=
  ∀ e ∈ q.available_buffers, (GetBuffer q e.slot).isSome = true

/-! Helper lemmas about arena reads and writes. -/

theorem getD_set_self {α : Type} (l : List α) (i : Nat) (v d : α)
    (h : i < l.length) : (l.set i v).getD i d = v := by
  rw [List.getD_eq_getElem?_getD, List.getElem?_set_self h]
  rfl

theorem getD_set_ne {α : Type} (l : List α) (i j : Nat) (v d : α)
    (h : i ≠ j) : (l.set i v).getD j d = l.getD j d := by
  rw [List.getD_eq_getElem?_getD, List.getElem?_set_ne h,
    ← List.getD_eq_getElem?_getD]

theorem getD_replicate {α : Type} (n i : Nat) (d : α) :
    (List.replicate n d).getD i d = d := by
  rw [List.getD_eq_getElem?_getD, List.getElem?_replicate]
  split <;> rfl

theorem getD_out_of_range {α : Type} (l : List α) (i : Nat) (d : α)
    (h : l.length ≤ i) : l.getD i d = d := by
  rw [List.getD_eq_getElem?_getD, List.getElem?_eq_none h]
  rfl

theorem lt_length_of_getD_eq_some {α : Type} (l : List (Option α)) (i : Nat)
    (b : α) (h : l.getD i none = some b) : i < l.length := by
  by_contra hc
  rw [getD_out_of_range l i none (by omega)] at h
  cases h

/-- Claim C9: on int64 epoll data indices, the buffer-event classifier
accepts exactly the range `[0, kMaxQueueCapacity)`, the queue-event
classifier accepts exactly the reserved value
`kEpollQueueEventIndex = -1`, and no index satisfies both. -/
theorem event_index_classification (index : Int) :
    (is_buffer_event_index index && is_queue_event_index index) = false ∧
    (is_buffer_event_index index = true ↔
      0 ≤ index ∧ index < (kMaxQueueCapacity : Int)) ∧
    (is_queue_event_index index = true ↔ index = kEpollQueueEventIndex) := by
  refine ⟨?_, ?_, ?_⟩
  · rcases Bool.eq_false_or_eq_true (is_buffer_event_index index) with h | h
    · have hb : 0 ≤ index ∧ index < (kMaxQueueCapacity : Int) := by
        simpa [is_buffer_event_index] using h
      have hq : is_queue_event_index index = false := by
        simp only [is_queue_event_index, kEpollQueueEventIndex,
          beq_eq_false_iff_ne, ne_eq, kMaxQueueCapacity] at hb ⊢
        omega
      simp [hq]
    · simp [h]
  · simp [is_buffer_event_index]
  · simp [is_queue_event_index, kEpollQueueEventIndex]

/-- Claim C1: the slot lookup `GetBuffer` never fails: it is total on all
slot inputs; an out-of-arena slot, a never-registered slot and a detached
slot all yield the empty result, while a slot holding a registered buffer
yields exactly that buffer handle. -/
theorem getBuffer_lookup (q q2 : QueueState) (slot : Nat) (buf : Buffer)
    (hwf : WF q) :
    (kMaxQueueCapacity ≤ slot → GetBuffer q slot = none) ∧
    GetBuffer initQueue slot = none ∧
    (AddBuffer q buf slot = some q2 → GetBuffer q2 slot = some buf) ∧
    (DetachBuffer q slot = some q2 → GetBuffer q2 slot = none) := by
  obtain ⟨hb, hp⟩ := hwf
  refine ⟨?_, ?_, ?_, ?_⟩
  · intro hs
    exact getD_out_of_range _ _ _ (by omega)
  · exact getD_replicate _ _ _
  · intro hadd
    unfold AddBuffer DetachBuffer at hadd
    by_cases hcap : kMaxQueueCapacity ≤ q.capacity
    · simp [hcap] at hadd
    · by_cases hslot : kMaxQueueCapacity ≤ slot
      · simp [hcap, hslot] at hadd
      · cases hg : GetBuffer q slot with
        | none =>
            rw [if_neg hcap, if_neg hslot, hg] at hadd
            simp only [Option.some.injEq] at hadd
            subst hadd
            simp only [GetBuffer]
            apply getD_set_self
            omega
        | some b =>
            rw [if_neg hcap, if_neg hslot, hg] at hadd
            simp only [Option.some.injEq] at hadd
            subst hadd
            simp only [GetBuffer]
            apply getD_set_self
            simp only [List.length_set]
            omega
  · intro hdet
    unfold DetachBuffer at hdet
    split at hdet
    · exact absurd hdet (by simp)
    · rename_i hbuf hsome
      have hlt : slot < q.buffers.length :=
        lt_length_of_getD_eq_some _ _ _ hsome
      simp only [Option.some.injEq] at hdet
      subst hdet
      simp only [GetBuffer]
      apply getD_set_self
      exact hlt

/-- Witness for claim C1 at a concrete registration. -/
theorem getBuffer_lookup_witness :
    GetBuffer
      { buffers :=
          (List.replicate kMaxQueueCapacity none).set 0
            (some { id := 5, state := BufState.gained })
      , epollhup_pending := List.replicate kMaxQueueCapacity false
      , available_buffers := []
      , capacity := 1 } 0 = some { id := 5, state := BufState.gained } :=
  (getBuffer_lookup initQueue _ 0 { id := 5, state := BufState.gained }
    (by decide)).2.2.1 (by decide)

/-- Claim C10: `count()` reports the availability-ring occupancy while
`capacity()` reports the number of registered buffers: registration and
deregistration alone change `capacity` and leave `count` untouched,
enqueue and ring pop change `count` and leave `capacity` untouched, and
`is_full()` reports the ring's fullness — a state can be at full
registration capacity while the ring is empty. -/
theorem count_capacity_independence (q q2 : QueueState) (buf : Buffer)
    (slot : Nat) :
    (GetBuffer q slot = none → AddBuffer q buf slot = some q2 →
      count q2 = count q ∧ capacity q2 = capacity q + 1) ∧
    ((∀ e ∈ q.available_buffers, e.slot ≠ slot) →
      DetachBuffer q slot = some q2 →
      count q2 = count q ∧ capacity q2 = capacity q - 1) ∧
    ((GetBuffer q slot).isSome = true →
      count (Enqueue q buf slot) = count q + 1 ∧
      capacity (Enqueue q buf slot) = capacity q) ∧
    (∀ info q3, popFront q = .ok info q3 →
      count q3 + 1 = count q ∧ capacity q3 = capacity q) ∧
    is_full q = decide (kMaxQueueCapacity ≤ count q) ∧
    (∃ qf : QueueState,
      capacity qf = kMaxQueueCapacity ∧ is_full qf = false ∧ count qf = 0) := by
  refine ⟨?_, ?_, ?_, ?_, rfl, ?_⟩
  · intro hg hadd
    unfold AddBuffer at hadd
    by_cases hcap : kMaxQueueCapacity ≤ q.capacity
    · simp [hcap] at hadd
    · by_cases hslot : kMaxQueueCapacity ≤ slot
      · simp [hcap, hslot] at hadd
      · rw [if_neg hcap, if_neg hslot, hg] at hadd
        simp only [Option.some.injEq] at hadd
        subst hadd
        exact ⟨rfl, rfl⟩
  · intro hnone hdet
    unfold DetachBuffer at hdet
    cases hg : GetBuffer q slot with
    | none => rw [hg] at hdet; cases hdet
    | some b =>
        rw [hg] at hdet
        simp only [Option.some.injEq] at hdet
        subst hdet
        refine ⟨?_, rfl⟩
        have hfe : List.filter (fun e => !(e.slot == slot))
            q.available_buffers = q.available_buffers := by
          rw [List.filter_eq_self]
          intro a ha
          simpa using hnone a ha
        simp [count, hfe]
  · intro hs
    unfold Enqueue
    rw [if_pos hs]
    exact ⟨by simp [count], rfl⟩
  · intro info q3 hpop
    unfold popFront at hpop
    cases hr : q.available_buffers with
    | nil => rw [hr] at hpop; cases hpop
    | cons a rest =>
        rw [hr] at hpop
        simp only [DequeueResult.ok.injEq] at hpop
        obtain ⟨h1, h2⟩ := hpop
        subst h2
        simp [count, capacity, hr]
  · refine ⟨{ buffers := List.replicate kMaxQueueCapacity none
            , epollhup_pending := List.replicate kMaxQueueCapacity false
            , available_buffers := []
            , capacity := kMaxQueueCapacity }, rfl, rfl, rfl⟩

/-- Witness for claim C10 at a concrete registration and enqueue. -/
theorem count_capacity_independence_witness :
    (count
      { buffers :=
          (List.replicate kMaxQueueCapacity none).set 0
            (some { id := 7, state := BufState.gained })
      , epollhup_pending := List.replicate kMaxQueueCapacity false
      , available_buffers := []
      , capacity := 1 } = count initQueue ∧
     capacity
      { buffers :=
          (List.replicate kMaxQueueCapacity none).set 0
            (some { id := 7, state := BufState.gained })
      , epollhup_pending := List.replicate kMaxQueueCapacity false
      , available_buffers := []
      , capacity := 1 } = capacity initQueue + 1) :=
  (count_capacity_independence initQueue _
    { id := 7, state := BufState.gained } 0).1 (by decide) (by decide)

/-- Claim C5: constructing a producer queue with overlapping deny-set and
deny-clear usage masks always fails; and on a successfully constructed
producer queue an allocation request is rejected — with no slot
registered — whenever some bit of `usage_deny_set_mask` is set in the
requested usage or some bit of `usage_deny_clear_mask` is unset in it. -/
theorem usage_deny_masks_enforced (m cfg : UsageMasks) (q : QueueState)
    (usage : Nat) (alloc : Nat × Nat) :
    ((∃ i, m.deny_set_mask.testBit i = true ∧
        m.deny_clear_mask.testBit i = true) →
      producerCreate m = none) ∧
    (producerCreate m = some cfg →
      ((∃ i, cfg.deny_set_mask.testBit i = true ∧ usage.testBit i = true) ∨
       (∃ i, cfg.deny_clear_mask.testBit i = true ∧
          usage.testBit i = false)) →
      AllocateBuffer cfg q usage alloc = none) := by
  constructor
  · rintro ⟨i, h1, h2⟩
    have hne : m.deny_set_mask &&& m.deny_clear_mask ≠ 0 := by
      intro h0
      have hti := congrArg (fun n => Nat.testBit n i) h0
      simp [Nat.testBit_and, Nat.zero_testBit, h1, h2] at hti
    simp [producerCreate, hne]
  · intro hc hdeny
    have hden : usageDenied cfg usage = true := by
      unfold usageDenied
      rcases hdeny with ⟨i, h1, h2⟩ | ⟨i, h1, h2⟩
      · have hne : usage &&& cfg.deny_set_mask ≠ 0 := by
          intro h0
          have hti := congrArg (fun n => Nat.testBit n i) h0
          simp [Nat.testBit_and, Nat.zero_testBit, h1, h2] at hti
        simp [hne]
      · have hne : usage &&& cfg.deny_clear_mask ≠ cfg.deny_clear_mask := by
          intro h0
          have hti := congrArg (fun n => Nat.testBit n i) h0
          simp [Nat.testBit_and, h1, h2] at hti
        simp [hne]
    simp [AllocateBuffer, hden]

/-- Witness for claim C5: overlapping deny masks fail construction, and a
request hitting a deny-set bit is rejected. -/
theorem usage_deny_masks_enforced_witness :
    producerCreate
      { set_mask := 0, clear_mask := 0
      , deny_set_mask := 1, deny_clear_mask := 1 } = none ∧
    AllocateBuffer
      { set_mask := 0, clear_mask := 0
      , deny_set_mask := 1, deny_clear_mask := 2 }
      initQueue 1 (0, 0) = none :=
  ⟨(usage_deny_masks_enforced
      { set_mask := 0, clear_mask := 0
      , deny_set_mask := 1, deny_clear_mask := 1 }
      { set_mask := 0, clear_mask := 0
      , deny_set_mask := 1, deny_clear_mask := 1 }
      initQueue 0 (0, 0)).1 ⟨0, by decide, by decide⟩,
   (usage_deny_masks_enforced
      { set_mask := 0, clear_mask := 0
      , deny_set_mask := 1, deny_clear_mask := 2 }
      { set_mask := 0, clear_mask := 0
      , deny_set_mask := 1, deny_clear_mask := 2 }
      initQueue 1 (0, 0)).2 (by decide)
      (Or.inl ⟨0, by decide, by decide⟩)⟩

/-- Inversion of a successful `AddBuffer`: the capacity guard passed, the
slot is inside the arena, and the result is either a fresh registration or
a replacement that detached the old occupant and marked the suppress
flag. -/
theorem addBuffer_inv (q q2 : QueueState) (buf : Buffer) (slot : Nat)
    (h : AddBuffer q buf slot = some q2) :
    q.capacity < kMaxQueueCapacity ∧ slot < kMaxQueueCapacity ∧
    ((GetBuffer q slot = none ∧
        q2 = { q with
                 buffers := q.buffers.set slot (some buf),
                 capacity := q.capacity + 1 }) ∨
     (∃ b, GetBuffer q slot = some b ∧
        q2 = { buffers := q.buffers.set slot (some buf),
               epollhup_pending := q.epollhup_pending.set slot true,
               available_buffers :=
                 q.available_buffers.filter (fun e => !(e.slot == slot)),
               capacity := q.capacity - 1 + 1 })) := by
  unfold AddBuffer DetachBuffer at h
  by_cases hcap : kMaxQueueCapacity ≤ q.capacity
  · simp [hcap] at h
  · by_cases hslot : kMaxQueueCapacity ≤ slot
    · simp [hcap, hslot] at h
    · refine ⟨by omega, by omega, ?_⟩
      cases hg : GetBuffer q slot with
      | none =>
          rw [if_neg hcap, if_neg hslot, hg] at h
          simp only [Option.some.injEq] at h
          exact Or.inl ⟨rfl, h.symm⟩
      | some b =>
          rw [if_neg hcap, if_neg hslot, hg] at h
          simp only [Option.some.injEq] at h
          refine Or.inr ⟨b, rfl, ?_⟩
          rw [← h]
          simp [List.set_set]

/-- Inversion of a successful `DetachBuffer`: the slot held a buffer and
the result clears the slot, purges its ring entries and decrements the
registration count. -/
theorem detachBuffer_inv (q q2 : QueueState) (slot : Nat)
    (h : DetachBuffer q slot = some q2) :
    ∃ b, GetBuffer q slot = some b ∧
      q2 = { q with
               buffers := q.buffers.set slot none,
               available_buffers :=
                 q.available_buffers.filter (fun e => !(e.slot == slot)),
               capacity := q.capacity - 1 } := by
  unfold DetachBuffer at h
  cases hg : GetBuffer q slot with
  | none => rw [hg] at h; cases h
  | some b =>
      rw [hg] at h
      simp only [Option.some.injEq] at h
      exact ⟨b, rfl, h.symm⟩

/-- One step never pushes the registration count above the limit. -/
theorem capacity_le_step (role : Role) (q : QueueState) (op : Op)
    (h : capacity q ≤ kMaxQueueCapacity) :
    capacity (step role q op) ≤ kMaxQueueCapacity := by
  cases op with
  | add buf slot =>
      simp only [step]
      cases hadd : AddBuffer q buf slot with
      | none => exact h
      | some q2 =>
          obtain ⟨hcap, hslot, hcase⟩ := addBuffer_inv q q2 buf slot hadd
          rcases hcase with ⟨-, rfl⟩ | ⟨b, -, rfl⟩
          · simp only [Option.getD_some, capacity] at h ⊢
            omega
          · simp only [Option.getD_some, capacity] at h ⊢
            omega
  | detach slot =>
      simp only [step]
      cases hdet : DetachBuffer q slot with
      | none => exact h
      | some q2 =>
          obtain ⟨b, -, rfl⟩ := detachBuffer_inv q q2 slot hdet
          simp only [Option.getD_some, capacity] at h ⊢
          omega
  | enq buf slot =>
      simp only [step, Enqueue]
      split <;> exact h
  | pop =>
      simp only [step, popFront]
      cases q.available_buffers <;> exact h
  | handle slot kind =>
      simp only [step, HandleBufferEvent]
      cases hg : GetBuffer q slot with
      | none => exact h
      | some b =>
          cases kind with
          | epollin =>
              dsimp only [OnBufferReady, Enqueue]
              split <;> exact h
          | epollhup =>
              dsimp only
              by_cases hp : hupPending q slot
              · rw [if_pos hp]
                exact h
              · rw [if_neg hp]
                cases hdet : DetachBuffer q slot with
                | none => exact h
                | some q2 =>
                    obtain ⟨c, -, rfl⟩ := detachBuffer_inv q q2 slot hdet
                    simp only [Option.getD_some, capacity] at h ⊢
                    omega

/-- The capacity bound holds along every run. -/
theorem capacity_le_run (role : Role) (ops : List Op) :
    ∀ q : QueueState, capacity q ≤ kMaxQueueCapacity →
      capacity (run role q ops) ≤ kMaxQueueCapacity := by
  induction ops with
  | nil => intro q h; exact h
  | cons op rest ih =>
      intro q h
      exact ih (step role q op) (capacity_le_step role q op h)

/-- Claim C4: in every state reachable by registration, deregistration,
enqueue, pop and event-handling operations, the registration count never
exceeds `kMaxQueueCapacity`; a registration attempted at the limit fails
and leaves the entire queue state unchanged. -/
theorem capacity_never_exceeds (role : Role) (ops : List Op)
    (q : QueueState) (buf : Buffer) (slot : Nat)
    (hq : kMaxQueueCapacity ≤ capacity q) :
    capacity (run role initQueue ops) ≤ kMaxQueueCapacity ∧
    AddBuffer q buf slot = none ∧
    step role q (.add buf slot) = q := by
  have hq2 : kMaxQueueCapacity ≤ q.capacity := hq
  refine ⟨capacity_le_run role ops initQueue (by simp [initQueue, capacity]), ?_, ?_⟩
  · unfold AddBuffer
    rw [if_pos hq2]
  · simp only [step]
    unfold AddBuffer
    rw [if_pos hq2]
    rfl

/-- Witness for claim C4: a registration at a full queue is a no-op. -/
theorem capacity_never_exceeds_witness :
    capacity (run Role.producer initQueue []) ≤ kMaxQueueCapacity ∧
    AddBuffer qFull bufB 3 = none ∧
    step Role.producer qFull (.add bufB 3) = qFull :=
  capacity_never_exceeds Role.producer [] qFull bufB 3 (by decide)

/-- Enqueue preserves ring sanity. -/
theorem ringOK_enqueue (q : QueueState) (buf : Buffer) (slot : Nat)
    (h : RingOK q) : RingOK (Enqueue q buf slot) := by
  unfold Enqueue
  by_cases hs : (GetBuffer q slot).isSome = true
  · rw [if_pos hs]
    intro e he
    rcases List.mem_append.mp he with h1 | h2
    · exact h e h1
    · have he2 : e = ⟨slot, buf⟩ := by simpa using h2
      subst he2
      exact hs
  · rw [if_neg hs]
    exact h

/-- Detach preserves ring sanity: the purged ring only references other
slots, whose table entries are untouched. -/
theorem ringOK_detach (q q2 : QueueState) (slot : Nat)
    (hdet : DetachBuffer q slot = some q2) (h : RingOK q) : RingOK q2 := by
  obtain ⟨b, hg, rfl⟩ := detachBuffer_inv q q2 slot hdet
  intro e he
  obtain ⟨hmem, hpe⟩ := List.mem_filter.mp he
  have hne : slot ≠ e.slot := by
    intro hx
    simp [hx] at hpe
  dsimp only [GetBuffer]
  rw [getD_set_ne _ _ _ _ _ hne]
  exact h e hmem

/-- Registration preserves ring sanity. -/
theorem ringOK_add (q q2 : QueueState) (buf : Buffer) (slot : Nat)
    (hadd : AddBuffer q buf slot = some q2) (h : RingOK q) : RingOK q2 := by
  obtain ⟨-, -, hcase⟩ := addBuffer_inv q q2 buf slot hadd
  rcases hcase with ⟨hg, rfl⟩ | ⟨b, hg, rfl⟩
  · intro e he
    have hne : slot ≠ e.slot := by
      intro hx
      subst hx
      have hthis := h e he
      rw [hg] at hthis
      cases hthis
    dsimp only [GetBuffer]
    rw [getD_set_ne _ _ _ _ _ hne]
    exact h e he
  · intro e he
    obtain ⟨hmem, hpe⟩ := List.mem_filter.mp he
    have hne : slot ≠ e.slot := by
      intro hx
      simp [hx] at hpe
    dsimp only [GetBuffer]
    rw [getD_set_ne _ _ _ _ _ hne]
    exact h e hmem

/-- Every operation step preserves ring sanity. -/
theorem ringOK_step (role : Role) (q : QueueState) (op : Op)
    (h : RingOK q) : RingOK (step role q op) := by
  cases op with
  | add buf slot =>
      simp only [step]
      cases hadd : AddBuffer q buf slot with
      | none => exact h
      | some q2 => exact ringOK_add q q2 buf slot hadd h
  | detach slot =>
      simp only [step]
      cases hdet : DetachBuffer q slot with
      | none => exact h
      | some q2 => exact ringOK_detach q q2 slot hdet h
  | enq buf slot => exact ringOK_enqueue q buf slot h
  | pop =>
      simp only [step, popFront]
      cases hr : q.available_buffers with
      | nil => exact h
      | cons a rest =>
          intro e he
          refine h e ?_
          rw [hr]
          exact List.mem_cons_of_mem _ he
  | handle slot kind =>
      simp only [step, HandleBufferEvent]
      cases hg : GetBuffer q slot with
      | none => exact h
      | some b =>
          cases kind with
          | epollin =>
              dsimp only [OnBufferReady]
              have key : ∀ c : Buffer,
                  RingOK (Enqueue
                    { q with buffers := q.buffers.set slot (some c) }
                    c slot) := by
                intro c
                apply ringOK_enqueue
                intro e he
                dsimp only [GetBuffer]
                by_cases hes : slot = e.slot
                · subst hes
                  rw [getD_set_self]
                  · rfl
                  · exact lt_length_of_getD_eq_some _ _ _ hg
                · rw [getD_set_ne _ _ _ _ _ hes]
                  exact h e he
              exact key _
          | epollhup =>
              dsimp only
              by_cases hp : hupPending q slot
              · rw [if_pos hp]
                intro e he
                exact h e he
              · rw [if_neg hp]
                cases hdet : DetachBuffer q slot with
                | none => exact h
                | some q2 => exact ringOK_detach q q2 slot hdet h

/-- Ring sanity holds along every run. -/
theorem ringOK_run (role : Role) (ops : List Op) :
    ∀ q : QueueState, RingOK q → RingOK (run role q ops) := by
  induction ops with
  | nil => intro q h; exact h
  | cons op rest ih =>
      intro q h
      exact ih (step role q op) (ringOK_step role q op h)

/-- Claim C8: after every sequence of registration, deregistration,
enqueue, pop and event-handling operations, every availability-ring entry
references a slot whose slot-table entry holds a buffer. -/
theorem ring_entries_reference_live_slots (role : Role) (ops : List Op)
    (e : BufferInfo)
    (he : e ∈ (run role initQueue ops).available_buffers) :
    (GetBuffer (run role initQueue ops) e.slot).isSome = true := by
  have h0 : RingOK initQueue := by
    intro x hx
    exact absurd hx (List.not_mem_nil x)
  exact ringOK_run role ops initQueue h0 e he

/-- Witness for claim C8 on a run that registers and enqueues one
buffer. -/
theorem ring_entries_reference_live_slots_witness :
    (GetBuffer
      (run Role.producer initQueue [Op.add sampleBuf 0, Op.enq sampleBuf 0])
      0).isSome = true :=
  ring_entries_reference_live_slots Role.producer
    [Op.add sampleBuf 0, Op.enq sampleBuf 0] ⟨0, sampleBuf⟩ (by decide)

/-- A hangup on a slot whose suppress flag is set only clears the flag. -/
theorem hup_handle_suppressed (role : Role) (q : QueueState) (slot : Nat)
    (c : Buffer) (hg : GetBuffer q slot = some c)
    (hf : hupPending q slot = true) :
    HandleBufferEvent role q slot .epollhup =
      { q with epollhup_pending := q.epollhup_pending.set slot false } := by
  unfold HandleBufferEvent
  rw [hg]
  dsimp only
  rw [if_pos hf]

/-- A hangup on a populated slot with a clear suppress flag deregisters
the slot. -/
theorem hup_handle_detaches (role : Role) (q : QueueState) (slot : Nat)
    (c : Buffer) (hg : GetBuffer q slot = some c)
    (hf : hupPending q slot = false) :
    GetBuffer (HandleBufferEvent role q slot .epollhup) slot = none := by
  unfold HandleBufferEvent
  rw [hg]
  dsimp only
  rw [if_neg (by simp [hf])]
  have hdet : DetachBuffer q slot = some { q with
      buffers := q.buffers.set slot none,
      available_buffers :=
        q.available_buffers.filter (fun e => !(e.slot == slot)),
      capacity := q.capacity - 1 } := by
    unfold DetachBuffer
    rw [hg]
  rw [hdet]
  dsimp only [Option.getD, GetBuffer]
  apply getD_set_self
  exact lt_length_of_getD_eq_some _ _ _ hg

/-- Claim C3: replacing the occupant of a slot (a detach followed by the
immediate re-registration that `AddBuffer` performs) marks the per-slot
suppress flag; the next stale hangup notification for the old occupant
merely clears the flag and leaves the newly registered buffer, its
registration count and the ring untouched; a further hangup (the flag now
consumed) deregisters the slot; and the flag is false everywhere else —
initially, and across fresh registration, deregistration, enqueue and
readable-event handling. -/
theorem suppress_flag_protocol (role : Role) (q q1 : QueueState)
    (slot : Nat) (oldBuf newBuf : Buffer)
    (hwf : WF q)
    (hold : GetBuffer q slot = some oldBuf)
    (hflag : hupPending q slot = false)
    (hadd : AddBuffer q newBuf slot = some q1) :
    (hupPending q1 slot = true ∧ GetBuffer q1 slot = some newBuf) ∧
    (GetBuffer (HandleBufferEvent role q1 slot .epollhup) slot
        = some newBuf ∧
     capacity (HandleBufferEvent role q1 slot .epollhup) = capacity q1 ∧
     count (HandleBufferEvent role q1 slot .epollhup) = count q1 ∧
     hupPending (HandleBufferEvent role q1 slot .epollhup) slot = false) ∧
    GetBuffer (HandleBufferEvent role
      (HandleBufferEvent role q1 slot .epollhup) slot .epollhup) slot
        = none ∧
    hupPending initQueue slot = false ∧
    (∀ q2 q3 : QueueState, ∀ buf2 : Buffer, ∀ s : Nat,
      GetBuffer q2 s = none → AddBuffer q2 buf2 s = some q3 →
      ∀ t, hupPending q3 t = hupPending q2 t) ∧
    (∀ q2 q3 : QueueState, ∀ s : Nat, DetachBuffer q2 s = some q3 →
      ∀ t, hupPending q3 t = hupPending q2 t) ∧
    (∀ q2 : QueueState, ∀ buf2 : Buffer, ∀ s t : Nat,
      hupPending (Enqueue q2 buf2 s) t = hupPending q2 t) ∧
    (∀ q2 : QueueState, ∀ s t : Nat,
      hupPending (HandleBufferEvent role q2 s .epollin) t
        = hupPending q2 t) := by
  obtain ⟨hwb, hwp⟩ := hwf
  obtain ⟨hcap, hslot, hcase⟩ := addBuffer_inv q q1 newBuf slot hadd
  rcases hcase with ⟨hg0, -⟩ | ⟨b0, -, hq1⟩
  · rw [hold] at hg0
    cases hg0
  have hb1 : q1.buffers = q.buffers.set slot (some newBuf) := by rw [hq1]
  have hp1 : q1.epollhup_pending = q.epollhup_pending.set slot true := by
    rw [hq1]
  have hg1 : GetBuffer q1 slot = some newBuf := by
    dsimp only [GetBuffer]
    rw [hb1]
    apply getD_set_self
    omega
  have hf1 : hupPending q1 slot = true := by
    dsimp only [hupPending]
    rw [hp1]
    apply getD_set_self
    omega
  have hlen1 : q1.epollhup_pending.length = kMaxQueueCapacity := by
    rw [hp1, List.length_set, hwp]
  have hH1 := hup_handle_suppressed role q1 slot newBuf hg1 hf1
  have hg2 : GetBuffer
      { q1 with epollhup_pending := q1.epollhup_pending.set slot false }
      slot = some newBuf := hg1
  have hf2 : hupPending
      { q1 with epollhup_pending := q1.epollhup_pending.set slot false }
      slot = false := by
    dsimp only [hupPending]
    apply getD_set_self
    omega
  refine ⟨⟨hf1, hg1⟩, ?_, ?_, ?_, ?_, ?_, ?_, ?_⟩
  · rw [hH1]
    exact ⟨hg2, rfl, rfl, hf2⟩
  · rw [hH1]
    exact hup_handle_detaches role _ slot newBuf hg2 hf2
  · dsimp only [hupPending, initQueue]
    exact getD_replicate _ _ _
  · intro q2 q3 buf2 s hgn hadd2 t
    obtain ⟨-, -, hcase2⟩ := addBuffer_inv q2 q3 buf2 s hadd2
    rcases hcase2 with ⟨-, rfl⟩ | ⟨b2, hb2, -⟩
    · rfl
    · rw [hgn] at hb2
      cases hb2
  · intro q2 q3 s hdet2 t
    obtain ⟨b2, -, rfl⟩ := detachBuffer_inv q2 q3 s hdet2
    rfl
  · intro q2 buf2 s t
    unfold Enqueue
    split <;> rfl
  · intro q2 s t
    unfold HandleBufferEvent
    cases hg3 : GetBuffer q2 s with
    | none => rfl
    | some c =>
        dsimp only [OnBufferReady]
        unfold Enqueue
        split <;> rfl

/-- Witness for claim C3 at the concrete replacement of slot 0. -/
theorem suppress_flag_protocol_witness :
    hupPending qRep 0 = true ∧ GetBuffer qRep 0 = some bufB :=
  (suppress_flag_protocol Role.consumer sampleReg qRep 0 sampleBuf bufB
    (by decide) (by decide) (by decide) (by decide)).1

/-- Claim C7: a successful producer allocation registers the fresh buffer
in the slot table in the gained state and immediately enqueues it, so a
subsequent producer `Dequeue` succeeds without consuming any event; on a
previously empty ring it returns exactly the new buffer. -/
theorem allocate_registers_and_enqueues_gained
    (m : UsageMasks) (q : QueueState) (usage : Nat) (bufId slot : Nat)
    (q2 : QueueState) (outSlot : Nat)
    (hwf : WF q)
    (halloc : AllocateBuffer m q usage (bufId, slot) = some (q2, outSlot)) :
    outSlot = slot ∧
    GetBuffer q2 slot = some { id := bufId, state := BufState.gained } ∧
    (⟨slot, { id := bufId, state := BufState.gained }⟩ : BufferInfo)
      ∈ q2.available_buffers ∧
    0 < count q2 ∧
    (∀ env : List WaitOutcome,
      Dequeue Role.producer q2 env = popFront q2) ∧
    (q.available_buffers = [] →
      Dequeue Role.producer q2 [] =
        .ok ⟨slot, { id := bufId, state := BufState.gained }⟩
          { q2 with available_buffers := [] }) := by
  unfold AllocateBuffer producerAddBuffer at halloc
  by_cases hden : usageDenied m usage = true
  · rw [if_pos hden] at halloc
    cases halloc
  · rw [if_neg hden] at halloc
    dsimp only at halloc
    cases hadd : AddBuffer q { id := bufId, state := BufState.gained } slot with
    | none => rw [hadd] at halloc; cases halloc
    | some qa =>
        rw [hadd] at halloc
        simp only [Option.map, Option.some.injEq, Prod.mk.injEq] at halloc
        obtain ⟨hq2, hout⟩ := halloc
        obtain ⟨hcap, hslot, hcase⟩ :=
          addBuffer_inv q qa { id := bufId, state := BufState.gained }
            slot hadd
        have hwb := hwf.1
        have hba : qa.buffers =
            q.buffers.set slot (some { id := bufId, state := BufState.gained }) := by
          rcases hcase with ⟨-, rfl⟩ | ⟨b, -, rfl⟩ <;> rfl
        have hga : GetBuffer qa slot =
            some { id := bufId, state := BufState.gained } := by
          dsimp only [GetBuffer]
          rw [hba]
          apply getD_set_self
          omega
        have henq : Enqueue qa { id := bufId, state := BufState.gained } slot
            = { qa with available_buffers := qa.available_buffers ++
                [⟨slot, { id := bufId, state := BufState.gained }⟩] } := by
          unfold Enqueue
          rw [if_pos (by rw [hga]; rfl)]
        subst hq2
        have hcnt : count (Enqueue qa
            { id := bufId, state := BufState.gained } slot) ≠ 0 := by
          rw [henq]
          dsimp only [count]
          simp
        refine ⟨hout.symm, ?_, ?_, ?_, ?_, ?_⟩
        · rw [henq]
          exact hga
        · rw [henq]
          exact List.mem_append.mpr (Or.inr (List.mem_singleton.mpr rfl))
        · omega
        · intro env
          unfold Dequeue
          rw [if_neg hcnt]
        · intro hemp
          have hra : qa.available_buffers = [] := by
            rcases hcase with ⟨-, rfl⟩ | ⟨b, -, rfl⟩ <;> simp [hemp]
          unfold Dequeue
          rw [if_neg hcnt]
          unfold popFront
          rw [henq, hra]
          rfl

/-- Witness for claim C7 at a concrete allocation into slot 3. -/
theorem allocate_registers_and_enqueues_gained_witness :
    GetBuffer qAlloc 3 = some { id := 9, state := BufState.gained } ∧
    (⟨3, { id := 9, state := BufState.gained }⟩ : BufferInfo)
      ∈ qAlloc.available_buffers :=
  ⟨(allocate_registers_and_enqueues_gained mZero initQueue 0 9 3 qAlloc 3
    (by decide) (by decide)).2.1,
   (allocate_registers_and_enqueues_gained mZero initQueue 0 9 3 qAlloc 3
    (by decide) (by decide)).2.2.1⟩

/-- Inversion of a successful consumer import over fresh, pairwise
distinct slots: the count is the number imported, the ring is untouched,
each imported buffer is registered at its slot, and all other slots keep
their table entry. -/
theorem importBuffers_inv (newBufs : List (Buffer × Nat)) :
    ∀ (q q2 : QueueState) (n : Nat),
      q.buffers.length = kMaxQueueCapacity →
      (∀ p ∈ newBufs, GetBuffer q p.2 = none) →
      (newBufs.map Prod.snd).Nodup →
      ImportBuffers q newBufs = some (q2, n) →
      n = newBufs.length ∧
      q2.available_buffers = q.available_buffers ∧
      q2.buffers.length = kMaxQueueCapacity ∧
      (∀ p ∈ newBufs, GetBuffer q2 p.2 = some p.1) ∧
      (∀ s : Nat, s ∉ newBufs.map Prod.snd →
        GetBuffer q2 s = GetBuffer q s) := by
  induction newBufs with
  | nil =>
      intro q q2 n hlen hfresh hnodup h
      unfold ImportBuffers at h
      simp only [Option.some.injEq, Prod.mk.injEq] at h
      obtain ⟨rfl, rfl⟩ := h
      refine ⟨rfl, rfl, hlen, ?_, ?_⟩
      · intro p hp
        cases hp
      · intro s _
        rfl
  | cons hd rest ih =>
      intro q q2 n hlen hfresh hnodup h
      obtain ⟨buf, slot⟩ := hd
      unfold ImportBuffers consumerAddBuffer at h
      cases hadd : AddBuffer q buf slot with
      | none => rw [hadd] at h; cases h
      | some qa =>
          rw [hadd] at h
          dsimp only at h
          cases himp : ImportBuffers qa rest with
          | none => rw [himp] at h; cases h
          | some pr =>
              obtain ⟨q3, k⟩ := pr
              rw [himp] at h
              simp only [Option.some.injEq, Prod.mk.injEq] at h
              obtain ⟨rfl, rfl⟩ := h
              have hgh : GetBuffer q slot = none :=
                hfresh (buf, slot) (List.mem_cons_self _ _)
              obtain ⟨hcap, hslot, hcase⟩ := addBuffer_inv q qa buf slot hadd
              rcases hcase with ⟨-, rfl⟩ | ⟨b, hb, -⟩
              swap
              · rw [hgh] at hb
                cases hb
              have hnod2 : slot ∉ rest.map Prod.snd ∧
                  (rest.map Prod.snd).Nodup :=
                List.nodup_cons.mp (by simpa using hnodup)
              have hlena : (q.buffers.set slot (some buf)).length
                  = kMaxQueueCapacity := by
                rw [List.length_set, hlen]
              have hfresha : ∀ p ∈ rest,
                  GetBuffer { q with
                    buffers := q.buffers.set slot (some buf),
                    capacity := q.capacity + 1 } p.2 = none := by
                intro p hp
                have hne : slot ≠ p.2 := by
                  intro hx
                  exact hnod2.1 (hx ▸ List.mem_map_of_mem Prod.snd hp)
                dsimp only [GetBuffer]
                rw [getD_set_ne _ _ _ _ _ hne]
                exact hfresh p (List.mem_cons_of_mem _ hp)
              obtain ⟨hk, hring, hlen3, hmem, hout⟩ :=
                ih _ q3 k hlena hfresha hnod2.2 himp
              refine ⟨by simp [hk], by rw [hring], hlen3, ?_, ?_⟩
              · intro p hp
                rcases List.mem_cons.mp hp with rfl | hp2
                · rw [hout slot hnod2.1]
                  dsimp only [GetBuffer]
                  apply getD_set_self
                  omega
                · exact hmem p hp2
              · intro s hs
                simp only [List.map_cons, List.mem_cons, not_or] at hs
                obtain ⟨hne, hs2⟩ := hs
                rw [hout s hs2]
                dsimp only [GetBuffer]
                rw [getD_set_ne _ _ _ _ _ (fun hx => hne hx.symm)]

/-- Claim C6: a successful consumer import registers every imported
buffer in the slot table without touching the availability ring; the
buffer becomes dequeueable only through the readable-event path, whose
`OnBufferReady` performs the acquire transition and appends exactly one
ring entry for it. -/
theorem import_registers_but_does_not_enqueue
    (q q2 : QueueState) (newBufs : List (Buffer × Nat)) (n : Nat)
    (hwf : WF q)
    (hfresh : ∀ p ∈ newBufs, GetBuffer q p.2 = none)
    (hnodup : (newBufs.map Prod.snd).Nodup)
    (himp : ImportBuffers q newBufs = some (q2, n)) :
    n = newBufs.length ∧
    q2.available_buffers = q.available_buffers ∧
    count q2 = count q ∧
    (∀ p ∈ newBufs, GetBuffer q2 p.2 = some p.1) ∧
    (∀ p ∈ newBufs,
      (HandleBufferEvent Role.consumer q2 p.2 .epollin).available_buffers =
        q2.available_buffers ++
          [⟨p.2, { id := p.1.id, state := BufState.acquired }⟩]) := by
  obtain ⟨h1, h2, h3, h4, h5⟩ :=
    importBuffers_inv newBufs q q2 n hwf.1 hfresh hnodup himp
  refine ⟨h1, h2, by dsimp only [count]; rw [h2], h4, ?_⟩
  intro p hp
  have hg := h4 p hp
  have hlt : p.2 < q2.buffers.length := lt_length_of_getD_eq_some _ _ _ hg
  unfold HandleBufferEvent
  rw [hg]
  dsimp only [OnBufferReady]
  unfold Enqueue
  rw [if_pos ?hguard]
  case hguard =>
    dsimp only [GetBuffer]
    rw [getD_set_self _ _ _ _ hlt]
    rfl

/-- Witness for claim C6 at a concrete import into slot 2. -/
theorem import_registers_but_does_not_enqueue_witness :
    qImp.available_buffers = initQueue.available_buffers :=
  (import_registers_but_does_not_enqueue initQueue qImp
    [({ id := 9, state := BufState.posted }, 2)] 1
    (by decide) (by decide) (by decide) (by decide)).2.1

/-- If the wait loop reports failure, a wait expired after the full
budget (or the primitive failed, excluded here): the loop never gives up
merely because the ring stayed empty. -/
theorem waitForBuffers_false_inv (role : Role) (timeout : Int) :
    ∀ (env : List WaitOutcome) (q q2 : QueueState) (e : Nat),
      envValidFrom timeout e env = true →
      WaitOutcome.fatal ∉ env →
      WaitForBuffers role q env = some (false, q2) →
      0 ≤ timeout ∧ timeout ≤ (e : Int) + (envElapsed env : Int) := by
  intro env
  induction env with
  | nil =>
      intro q q2 e hval hnf hw
      unfold WaitForBuffers at hw
      by_cases hc : count q ≠ 0
      · rw [if_pos hc] at hw
        simp at hw
      · rw [if_neg hc] at hw
        cases hw
  | cons o rest ih =>
      intro q q2 e hval hnf hw
      unfold WaitForBuffers at hw
      by_cases hc : count q ≠ 0
      · rw [if_pos hc] at hw
        simp at hw
      · rw [if_neg hc] at hw
        cases o with
        | timedOut =>
            unfold envValidFrom at hval
            rw [Bool.and_eq_true] at hval
            have hp := of_decide_eq_true hval.1
            refine ⟨hp.1, ?_⟩
            have h2 := hp.2
            have h3 : (0 : Int) ≤ (envElapsed (.timedOut :: rest) : Int) := by
              positivity
            omega
        | fatal => exact absurd (List.mem_cons_self _ _) hnf
        | woke d es =>
            unfold envValidFrom at hval
            have hnf2 : WaitOutcome.fatal ∉ rest := fun hx =>
              hnf (List.mem_cons_of_mem _ hx)
            obtain ⟨h1, h2⟩ :=
              ih (dispatchAll role q es) q2 (e + d) hval hnf2 hw
            refine ⟨h1, ?_⟩
            have h4 : envElapsed (.woke d es :: rest)
                = d + envElapsed rest := rfl
            rw [h4]
            push_cast at h2 ⊢
            omega

/-- If the wait loop reports success, the ring is non-empty. -/
theorem waitForBuffers_true_count (role : Role) :
    ∀ (env : List WaitOutcome) (q q2 : QueueState),
      WaitForBuffers role q env = some (true, q2) → count q2 ≠ 0 := by
  intro env
  induction env with
  | nil =>
      intro q q2 hw
      unfold WaitForBuffers at hw
      by_cases hc : count q ≠ 0
      · rw [if_pos hc] at hw
        simp only [Option.some.injEq, Prod.mk.injEq, true_and] at hw
        exact hw ▸ hc
      · rw [if_neg hc] at hw
        cases hw
  | cons o rest ih =>
      intro q q2 hw
      unfold WaitForBuffers at hw
      by_cases hc : count q ≠ 0
      · rw [if_pos hc] at hw
        simp only [Option.some.injEq, Prod.mk.injEq, true_and] at hw
        exact hw ▸ hc
      · rw [if_neg hc] at hw
        cases o with
        | timedOut => simp at hw
        | fatal => simp at hw
        | woke d es => exact ih _ q2 hw

/-- Claim C2: over any fatal-error-free wait environment valid for the
caller's timeout, `Dequeue` returns the empty result only once the
timeout's full budget has elapsed — hence a negative timeout (block
indefinitely) never produces the empty result, a zero timeout may poll
and return empty immediately, and an empty ring with time remaining makes
the loop re-wait rather than return empty. -/
theorem dequeue_empty_only_on_timeout
    (role : Role) (q q2 : QueueState) (timeout : Int)
    (env : List WaitOutcome)
    (hval : envValid timeout env = true)
    (hnf : WaitOutcome.fatal ∉ env) :
    (Dequeue role q env = .empty q2 →
      0 ≤ timeout ∧ timeout ≤ (envElapsed env : Int)) ∧
    (timeout < 0 → Dequeue role q env ≠ .empty q2) ∧
    (count q = 0 → Dequeue role q [WaitOutcome.timedOut] = .empty q) := by
  have main : Dequeue role q env = .empty q2 →
      0 ≤ timeout ∧ timeout ≤ (envElapsed env : Int) := by
    intro hd
    unfold Dequeue at hd
    by_cases hc : count q = 0
    · rw [if_pos hc] at hd
      cases hw : WaitForBuffers role q env with
      | none => rw [hw] at hd; cases hd
      | some pr =>
          obtain ⟨b, q3⟩ := pr
          rw [hw] at hd
          cases b with
          | false =>
              have hinv := waitForBuffers_false_inv role timeout env q q3 0
                hval hnf hw
              simpa using hinv
          | true =>
              have hc3 := waitForBuffers_true_count role env q q3 hw
              dsimp only at hd
              unfold popFront at hd
              cases hr : q3.available_buffers with
              | nil => exact absurd (by simp [count, hr]) hc3
              | cons a rest => rw [hr] at hd; cases hd
    · rw [if_neg hc] at hd
      unfold popFront at hd
      cases hr : q.available_buffers with
      | nil => exact absurd (by simp [count, hr]) hc
      | cons a rest => rw [hr] at hd; cases hd
  refine ⟨main, ?_, ?_⟩
  · intro hneg hd
    have h1 := (main hd).1
    omega
  · intro hc
    have hwv : WaitForBuffers role q [WaitOutcome.timedOut]
        = some (false, q) := by
      unfold WaitForBuffers
      rw [if_neg (not_not_intro hc)]
    unfold Dequeue
    rw [if_pos hc, hwv]

/-- Witness for claim C2 on a concrete 5 ms budget that expires after one
wake-up. -/
theorem dequeue_empty_only_on_timeout_witness :
    0 ≤ (5 : Int) ∧ (5 : Int) ≤
      ((envElapsed [WaitOutcome.woke 5 [], WaitOutcome.timedOut] : Nat) : Int) :=
  (dequeue_empty_only_on_timeout Role.producer initQueue initQueue 5
    [WaitOutcome.woke 5 [], WaitOutcome.timedOut]
    (by decide) (by decide)).1 (by decide)

end BufferHubQueueSpec
